import Mathlib

/-!
Verification of the manifest-driven static page resolver and content loader
of `src/multi_page_md_viewer_react.jsx`.

The data model and operations below are a shallow embedding of the source:
the hard-coded `manifest` array, the path enumeration of `getStaticPaths`,
the descriptor lookup and content loading of `getStaticProps`, and the
neighbor computation and background-style fallback of `LearnPage`.
JavaScript array operations (`find`, `findIndex`, `map`, indexing) are
embedded with their JavaScript semantics: `find`/`findIndex` return the
first match, `findIndex` returns `-1` when nothing matches, and indexing
out of range yields `undefined` (here `none`).
-/

/-- One entry of the hard-coded `manifest` array:
`{ id, title, file, bg }` (source lines 35-37).  `bg` is optional in the
data model (the component tests its truthiness before using it). -/
structure PageDescriptor where
  id : String
  title : String
  file : String
  bg : Option String
deriving DecidableEq

/-- The hard-coded manifest (source lines 34-38). -/
def manifest : List PageDescriptor :=
  [ ⟨"network", "计算机网络", "network.md", some "/images/network.jpg"⟩,
    ⟨"os", "操作系统", "os.md", some "/images/os.jpg"⟩,
    ⟨"crypto", "密码学", "crypto.md", some "/images/crypto.jpg"⟩ ]

/-- JavaScript `Array.prototype.find`: first element satisfying the
predicate, `undefined` (`none`) otherwise. -/
def findJS (p : PageDescriptor → Bool) : List PageDescriptor → Option PageDescriptor
  | [] => none
  | d :: rest => if p d then some d else findJS p rest

/-- Index of the first element satisfying the predicate, if any. -/
def findIndexNat (p : PageDescriptor → Bool) : List PageDescriptor → Option Nat
  | [] => none
  | d :: rest => if p d then some 0 else (findIndexNat p rest).map (· + 1)

/-- JavaScript `Array.prototype.findIndex`: index of the first match,
`-1` when nothing matches. -/
def findIndexJS (m : List PageDescriptor) (id : String) : Int :=
  match findIndexNat (fun d => d.id == id) m with
  | some i => (i : Int)
  | none => -1

/-- JavaScript array indexing `m[i]` with a possibly negative index:
out of range yields `undefined` (`none`). -/
def getJS (m : List PageDescriptor) (i : Int) : Option PageDescriptor :=
  if 0 ≤ i then m.get? i.toNat else none

/-- The path enumeration of `getStaticPaths` (source lines 43-46):
`manifest.map((m) => ({ params: { id: m.id } }))`, i.e. one identifier per
manifest entry, in manifest order.  This is the `listPageIds` operation of
the Manifest Resolver. -/
def listPageIds (m : List PageDescriptor) : List String :=
  m.map (fun d => d.id)

/-- The descriptor lookup of `getStaticProps` (source line 52):
`manifest.find((m) => m.id === params.id)`.  This is the `resolve`
operation; `none` is the failure the design calls `NotFoundError` (the
JavaScript would fault dereferencing `undefined` at line 53). -/
def resolve (m : List PageDescriptor) (id : String) : Option PageDescriptor :=
  findJS (fun d => d.id == id) m

/-- The neighbor computation of `LearnPage` (source lines 69-71):
`index = manifest.findIndex((m) => m.id === page.id)`;
`next = index < manifest.length - 1 ? manifest[index + 1] : null`;
`prev = index > 0 ? manifest[index - 1] : null`.
Returns `(prev, next)`. -/
def neighbors (m : List PageDescriptor) (id : String) :
    Option PageDescriptor × Option PageDescriptor :=
  let index := findIndexJS m id
  let nxt := if index < (m.length : Int) - 1 then getJS m (index + 1) else none
  let prv := if index > 0 then getJS m (index - 1) else none
  (prv, nxt)

/-- `path.join(dir, file)` for the fragments the source joins (source
lines 33 and 53). -/
def pathJoin (dir file : String) : String := dir ++ "/" ++ file

/-- The content directory (source line 33):
`path.join(process.cwd(), 'public', 'content')`; the `process.cwd()`
prefix is environment-dependent and abstracted away. -/
def contentDir : String := pathJoin "public" "content"

/-- State of one path in the file system: a readable text file (modelled
as its list of lines), an absent file, or a file whose read fails with
some other I/O error. -/
inductive FileState where
  | lines (content : List String)
  | absent
  | ioError
deriving DecidableEq

/-- A file system: what each path holds at the moment a read happens. -/
def FS := String → FileState

/-- Build-time failures of `getStaticProps`.  `notFound` is the design's
`NotFoundError` (the JavaScript faults dereferencing `undefined` at source
line 53); `fileNotFound` and `readError` are the design's
`FileNotFoundError` and `ReadError`. -/
inductive BuildError where
  | notFound
  | fileNotFound
  | readError
deriving DecidableEq

/-- Modelled from the spec: `fs.readFileSync` (source line 54; the `fs`
module is library code absent from `src/`).  Per the spec, a read of an
absent file fails with `FileNotFoundError` and any other I/O failure
fails with `ReadError`; the exception propagates (the source has no
try/catch). -/
def readFileSync (fs : FS) (p : String) : Except BuildError (List String) :=
  match fs p with
  | .lines c => .ok c
  | .absent => .error .fileNotFound
  | .ioError => .error .readError

/-- Scan for the first `"---"` line; on success return the lines before
it and the lines after it. -/
def splitAtClose : List String → Option (List String × List String)
  | [] => none
  | l :: rest =>
      if l == "---" then some ([], rest)
      else (splitAtClose rest).map (fun q => (l :: q.1, q.2))

/-- Modelled from the spec: the front-matter extraction of the `matter`
library (source line 55; the library is absent from `src/`).  Per the
spec, if the file begins with a delimited metadata section — an opening
`"---"` line, metadata lines, and a closing `"---"` line — the section is
discarded and the remaining body is returned unchanged; otherwise the
whole file is the body.  File contents are modelled as lists of lines. -/
def matterContent (ls : List String) : List String :=
  match ls with
  | [] => []
  | l :: rest =>
      if l == "---" then
        match splitAtClose rest with
        | some q => q.2
        | none => l :: rest
      else l :: rest

/-- The props `getStaticProps` returns for one page (source lines 57-62):
the resolved descriptor and the front-matter-stripped body. -/
structure PageProps where
  page : PageDescriptor
  content : List String
deriving DecidableEq

/-- `getStaticProps` (source lines 51-63): resolve the descriptor by id,
read its file under the content directory, strip front matter, and return
the props.  Each failure propagates and aborts the build. -/
def getStaticProps (fs : FS) (id : String) : Except BuildError PageProps :=
  match resolve manifest id with
  | none => .error .notFound
  | some page =>
      match readFileSync fs (pathJoin contentDir page.file) with
      | .error e => .error e
      | .ok raw => .ok ⟨page, matterContent raw⟩

/-- Map a fallible step over a list, stopping at the first failure. -/
def mapExcept (f : α → Except BuildError β) : List α → Except BuildError (List β)
  | [] => .ok []
  | a :: as =>
      match f a with
      | .error e => .error e
      | .ok b =>
          match mapExcept f as with
          | .error e => .error e
          | .ok bs => .ok (b :: bs)

/-- Modelled from the spec: the static build (the framework driver is
absent from `src/`).  Per the spec, the build runs `getStaticProps` once
per identifier enumerated by `getStaticPaths`, and either every page
succeeds or the whole build fails — no retry, no per-page skip, no
partial output. -/
def buildAll (fs : FS) : Except BuildError (List PageProps) :=
  mapExcept (getStaticProps fs) (listPageIds manifest)

/-- JavaScript truthiness of `page.bg` (source line 73): `undefined`,
`null` and the empty string are falsy. -/
def jsTruthy : Option String → Bool
  | none => false
  | some s => !(s == "")

/-- The inline style object of `LearnPage` (source lines 73-79): either
the three background-image properties or the single gradient fallback. -/
structure Style where
  backgroundImage : Option String
  backgroundSize : Option String
  backgroundPosition : Option String
  background : Option String
deriving DecidableEq

/-- The gradient fallback style (source line 79). -/
def gradientStyle : Style :=
  { backgroundImage := none, backgroundSize := none, backgroundPosition := none,
    background := some "linear-gradient(135deg, #0f172a, #021124)" }

/-- `backgroundStyle` (source lines 73-79): `page.bg ? { backgroundImage:
url(bg), backgroundSize: cover, backgroundPosition: center } : { background:
gradient }`. -/
def backgroundStyle (bg : Option String) : Style :=
  if jsTruthy bg then
    { backgroundImage := some ("url(" ++ bg.getD "" ++ ")"),
      backgroundSize := some "cover", backgroundPosition := some "center",
      background := none }
  else gradientStyle

/-- `listPageIds` as the source runs it: a read of the module-level
`manifest` binding followed by the pure map (source lines 43-46).  The
state is the manifest binding; the operation only reads it. -/
def listPageIdsM : StateM (List PageDescriptor) (List String) := do
  let m ← get
  return listPageIds m

/-- `resolve` as the source runs it: a read of the module-level
`manifest` binding followed by the pure lookup (source line 52). -/
def resolveM (id : String) : StateM (List PageDescriptor) (Option PageDescriptor) := do
  let m ← get
  return resolve m id

/-- `neighbors` as the source runs it: a read of the module-level
`manifest` binding followed by the pure neighbor computation (source
lines 69-71). -/
def neighborsM (id : String) :
    StateM (List PageDescriptor) (Option PageDescriptor × Option PageDescriptor) := do
  let m ← get
  return neighbors m id

/-- The file system that holds the same state at every path. -/
def fsConst (st : FileState) : FS := fun _ => st

/-- One path of a file system changed to a new state. -/
def fsUpdate (fs : FS) (p : String) (st : FileState) : FS :=
  fun q => if q == p then st else fs q

theorem findIndexNat_eq_none {p : PageDescriptor → Bool} :
    ∀ m : List PageDescriptor, findIndexNat p m = none ↔ ∀ d ∈ m, ¬ p d
  | [] => by simp [findIndexNat]
  | d :: rest => by
      by_cases hp : p d
      · simp [findIndexNat, hp]
      · simp [findIndexNat, hp, findIndexNat_eq_none rest]

theorem findIndexNat_get {m : List PageDescriptor} {i : Nat} (hi : i < m.length)
    (hnd : (m.map PageDescriptor.id).Nodup) :
    findIndexNat (fun d => d.id == (m.get ⟨i, hi⟩).id) m = some i := by
  induction m generalizing i with
  | nil => simp at hi
  | cons a rest ih =>
      have hnd' : (∀ x ∈ rest, ¬ x.id = a.id) ∧
          (List.map PageDescriptor.id rest).Nodup := by simpa using hnd
      cases i with
      | zero => simp [findIndexNat]
      | succ j =>
          have hj : j < rest.length := by simpa using hi
          have hne : ¬ a.id = (rest.get ⟨j, hj⟩).id := fun he =>
            hnd'.1 (rest.get ⟨j, hj⟩) (rest.get_mem j hj) he.symm
          have hget : (a :: rest).get ⟨j + 1, hi⟩ = rest.get ⟨j, hj⟩ := rfl
          rw [hget]
          have hne2 : ¬ a.id = rest[j].id := by
            simpa [List.get_eq_getElem] using hne
          have hrec := ih hj hnd'.2
          simp only [List.get_eq_getElem] at hrec
          simp [findIndexNat, hne2, hrec]

theorem findJS_eq_some {p : PageDescriptor → Bool} :
    ∀ {m : List PageDescriptor} {d : PageDescriptor},
      findJS p m = some d → d ∈ m ∧ p d := by
  intro m
  induction m with
  | nil => intro d h; simp [findJS] at h
  | cons a rest ih =>
      intro d h
      by_cases hp : p a
      · simp [findJS, hp] at h
        subst h; exact ⟨List.mem_cons_self a rest, hp⟩
      · simp [findJS, hp] at h
        rcases ih h with ⟨hm, hpd⟩
        exact ⟨List.mem_cons_of_mem a hm, hpd⟩

theorem findJS_eq_none {p : PageDescriptor → Bool} :
    ∀ m : List PageDescriptor, findJS p m = none ↔ ∀ d ∈ m, ¬ p d
  | [] => by simp [findJS]
  | d :: rest => by
      by_cases hp : p d
      · simp [findJS, hp]
      · simp [findJS, hp, findJS_eq_none rest]

theorem findJS_append {p : PageDescriptor → Bool} {d : PageDescriptor}
    (hd : p d) :
    ∀ m1 m2 : List PageDescriptor, (∀ x ∈ m1, ¬ p x) →
      findJS p (m1 ++ d :: m2) = some d
  | [], m2 => fun _ => by simp [findJS, hd]
  | a :: m1, m2 => fun h => by
      have ha : ¬ p a := h a (List.mem_cons_self a m1)
      have h1 : ∀ x ∈ m1, ¬ p x := fun x hx => h x (List.mem_cons_of_mem a hx)
      simp [findJS, ha, findJS_append hd m1 m2 h1]

theorem getJS_ofNat (m : List PageDescriptor) (i : Nat) :
    getJS m (i : Int) = m.get? i := by
  simp [getJS]

theorem resolve_mem {m : List PageDescriptor}
    (hnd : (m.map PageDescriptor.id).Nodup) :
    ∀ {d : PageDescriptor}, d ∈ m → resolve m d.id = some d := by
  induction m with
  | nil => intro d hd; simp at hd
  | cons a rest ih =>
      intro d hd
      have hnd' : (∀ x ∈ rest, ¬ x.id = a.id) ∧
          (List.map PageDescriptor.id rest).Nodup := by simpa using hnd
      rcases List.mem_cons.mp hd with h | h
      · subst h; simp [resolve, findJS]
      · have hne : ¬ a.id = d.id := fun he => hnd'.1 d h he.symm
        have := ih hnd'.2 h
        simpa [resolve, findJS, hne] using this

theorem mapExcept_error_of_mem {f : α → Except BuildError β} :
    ∀ {l : List α} {a : α}, a ∈ l → (∃ e, f a = .error e) →
      ∃ e, mapExcept f l = .error e := by
  intro l
  induction l with
  | nil => intro a ha; simp at ha
  | cons x xs ih =>
      intro a ha he
      rcases List.mem_cons.mp ha with h | h
      · subst h
        rcases he with ⟨e, hfe⟩
        exact ⟨e, by simp [mapExcept, hfe]⟩
      · cases hx : f x with
        | error e => exact ⟨e, by simp [mapExcept, hx]⟩
        | ok b =>
            rcases ih h he with ⟨e, hme⟩
            exact ⟨e, by simp [mapExcept, hx, hme]⟩

theorem splitAtClose_append {meta body : List String} (h : "---" ∉ meta) :
    splitAtClose (meta ++ "---" :: body) = some (meta, body) := by
  induction meta with
  | nil => simp [splitAtClose]
  | cons l rest ih =>
      have hl : l ≠ "---" := fun he => h (he ▸ List.mem_cons_self l rest)
      have h' : "---" ∉ rest := fun hm => h (List.mem_cons_of_mem l hm)
      simp [splitAtClose, hl, ih h']

theorem neighbors_unknown {m : List PageDescriptor} {id : String}
    (h : ∀ d ∈ m, d.id ≠ id) : neighbors m id = (none, m.head?) := by
  have hfind : findIndexJS m id = -1 := by
    unfold findIndexJS
    rw [(findIndexNat_eq_none m).mpr (by simpa using h)]
  cases m with
  | nil => simp [neighbors, hfind, getJS]
  | cons a rest =>
      simp [neighbors, hfind, getJS]
      omega

/-- C1: for every id in the manifest, `neighbors` yields no previous at
the first descriptor, no next at the last, and for interior descriptors
exactly the manifest entries at the position minus one and plus one; no
wraparound at either boundary. -/
theorem neighbors_adjacent (m : List PageDescriptor) (i : Nat) (hi : i < m.length)
    (hnd : (m.map PageDescriptor.id).Nodup) :
    neighbors m ((m.get ⟨i, hi⟩).id) =
      ((if h : 0 < i then some (m.get ⟨i - 1, by omega⟩) else none),
       (if h : i + 1 < m.length then some (m.get ⟨i + 1, h⟩) else none)) := by
  have hfind : findIndexJS m ((m.get ⟨i, hi⟩).id) = (i : Int) := by
    unfold findIndexJS
    rw [findIndexNat_get hi hnd]
  have hprev : (if findIndexJS m ((m.get ⟨i, hi⟩).id) > 0 then
      getJS m (findIndexJS m ((m.get ⟨i, hi⟩).id) - 1) else none) =
      (if h : 0 < i then some (m.get ⟨i - 1, by omega⟩) else none) := by
    simp only [hfind]
    by_cases h0 : 0 < i
    · rw [if_pos (by exact_mod_cast h0), dif_pos h0]
      have hcast : (i : Int) - 1 = ((i - 1 : Nat) : Int) := by omega
      rw [hcast, getJS_ofNat, List.get?_eq_get (by omega)]
    · rw [if_neg (by omega), dif_neg h0]
  have hnext : (if findIndexJS m ((m.get ⟨i, hi⟩).id) < (m.length : Int) - 1 then
      getJS m (findIndexJS m ((m.get ⟨i, hi⟩).id) + 1) else none) =
      (if h : i + 1 < m.length then some (m.get ⟨i + 1, h⟩) else none) := by
    simp only [hfind]
    by_cases h1 : i + 1 < m.length
    · rw [if_pos (by omega), dif_pos h1]
      have hcast : (i : Int) + 1 = ((i + 1 : Nat) : Int) := by omega
      rw [hcast, getJS_ofNat, List.get?_eq_get h1]
    · rw [if_neg (by omega), dif_neg h1]
  calc neighbors m ((m.get ⟨i, hi⟩).id)
      = ((if findIndexJS m ((m.get ⟨i, hi⟩).id) > 0 then
            getJS m (findIndexJS m ((m.get ⟨i, hi⟩).id) - 1) else none),
         (if findIndexJS m ((m.get ⟨i, hi⟩).id) < (m.length : Int) - 1 then
            getJS m (findIndexJS m ((m.get ⟨i, hi⟩).id) + 1) else none)) := rfl
    _ = _ := by rw [hprev, hnext]

/-- Witness for C1: at the interior descriptor `os` (position 1) of the
concrete manifest, the neighbors are `network` and `crypto`. -/
theorem neighbors_adjacent_witness :
    1 < manifest.length ∧ (manifest.map PageDescriptor.id).Nodup ∧
      neighbors manifest ((manifest.get ⟨1, by decide⟩).id) =
        (some (manifest.get ⟨0, by decide⟩), some (manifest.get ⟨2, by decide⟩)) := by
  refine ⟨by decide, by decide, ?_⟩
  have h := neighbors_adjacent manifest 1 (by decide) (by decide)
  exact h.trans (by decide)

/-- C2: `resolve` is total over the manifest's id set — each descriptor is
found under its own id — idempotent there, and any id outside the set
fails (`none`, the design's `NotFoundError`). -/
theorem resolve_total_on_ids (m : List PageDescriptor) (id : String)
    (hnd : (m.map PageDescriptor.id).Nodup) :
    (∀ d ∈ m, resolve m d.id = some d) ∧
    (id ∉ listPageIds m → resolve m id = none) ∧
    (∀ d, resolve m id = some d → d.id = id ∧ resolve m d.id = some d) := by
  refine ⟨fun d hd => resolve_mem hnd hd, ?_, ?_⟩
  · intro hnot
    show findJS (fun d => d.id == id) m = none
    rw [findJS_eq_none]
    intro d hd
    simp only [beq_iff_eq]
    intro he
    exact hnot (show id ∈ listPageIds m by
      simp only [listPageIds, List.mem_map]
      exact ⟨d, hd, he⟩)
  · intro d hres
    obtain ⟨hmem, hpd⟩ := findJS_eq_some hres
    have hid : d.id = id := by simpa using hpd
    refine ⟨hid, ?_⟩
    rw [hid]
    exact hres

/-- Witness for C2: in the concrete manifest, `os` resolves to its own
descriptor and the foreign id `unknown` fails. -/
theorem resolve_total_on_ids_witness :
    (manifest.map PageDescriptor.id).Nodup ∧
      resolve manifest
          (⟨"os", "操作系统", "os.md", some "/images/os.jpg"⟩ : PageDescriptor).id
        = some ⟨"os", "操作系统", "os.md", some "/images/os.jpg"⟩ ∧
      resolve manifest "unknown" = none := by
  have h := resolve_total_on_ids manifest "unknown" (by decide)
  exact ⟨by decide, h.1 _ (by decide), h.2.1 (by decide)⟩

/-- C3: `listPageIds` returns exactly the configured ids — one per
manifest entry, every configured id present and nothing else — and on the
concrete manifest it has no duplicates. -/
theorem listPageIds_exact :
    (∀ m : List PageDescriptor, (listPageIds m).length = m.length ∧
      ∀ s : String, s ∈ listPageIds m ↔ ∃ d ∈ m, d.id = s) ∧
    (listPageIds manifest).Nodup ∧
    listPageIds manifest = ["network", "os", "crypto"] := by
  refine ⟨fun m => ⟨by simp [listPageIds], fun s => ?_⟩, by decide, by decide⟩
  simp [listPageIds, List.mem_map]

/-- C4: `load` strips exactly the leading delimited metadata block when
one is present and returns the remaining body unchanged; with no metadata
block the body equals the file's full contents (round-trip identity), and
`getStaticProps` returns exactly the stripped contents as props. -/
theorem load_round_trip :
    (∀ raw : List String, raw.head? ≠ some "---" → matterContent raw = raw) ∧
    (∀ meta body : List String, "---" ∉ meta →
      matterContent ("---" :: (meta ++ "---" :: body)) = body) ∧
    (∀ (fs : FS) (id : String) (page : PageDescriptor) (raw : List String),
      resolve manifest id = some page →
      fs (pathJoin contentDir page.file) = FileState.lines raw →
      getStaticProps fs id = .ok ⟨page, matterContent raw⟩) := by
  refine ⟨?_, ?_, ?_⟩
  · intro raw h
    cases raw with
    | nil => rfl
    | cons l rest =>
        have hl : ¬ l = "---" := fun he => h (by simp [he])
        simp [matterContent, hl]
  · intro meta body h
    simp [matterContent, splitAtClose_append h]
  · intro fs id page raw hres hfs
    simp [getStaticProps, hres, readFileSync, hfs]

/-- Witness for C4: a file with no metadata block round-trips; a file
with a metadata block loses exactly the block, both as `matterContent`
alone and through `getStaticProps` for the `os` page. -/
theorem load_round_trip_witness :
    ((["hello"] : List String).head? ≠ some "---" ∧
      matterContent ["hello"] = ["hello"]) ∧
    (("---" ∉ (["title: x"] : List String)) ∧
      matterContent ["---", "title: x", "---", "b"] = ["b"]) ∧
    (resolve manifest "os" = some ⟨"os", "操作系统", "os.md", some "/images/os.jpg"⟩ ∧
      getStaticProps (fsConst (FileState.lines ["---", "title: x", "---", "b"])) "os"
        = .ok ⟨⟨"os", "操作系统", "os.md", some "/images/os.jpg"⟩, ["b"]⟩) := by
  have h := load_round_trip
  refine ⟨⟨by decide, h.1 ["hello"] (by decide)⟩,
    ⟨by decide, h.2.1 ["title: x"] ["b"] (by decide)⟩, ⟨by decide, ?_⟩⟩
  have h3 := h.2.2 (fsConst (FileState.lines ["---", "title: x", "---", "b"])) "os"
      ⟨"os", "操作系统", "os.md", some "/images/os.jpg"⟩
      ["---", "title: x", "---", "b"] (by decide) rfl
  have hmc : matterContent ["---", "title: x", "---", "b"] = ["b"] := by decide
  rw [hmc] at h3
  exact h3

/-- C5: `load` fails with `FileNotFoundError` when the descriptor's file
is absent and with `ReadError` on any other I/O failure, and any such
failure makes the whole build fail — no per-page skip, no partial
output. -/
theorem load_failures (fs : FS) (id : String) (page : PageDescriptor)
    (hres : resolve manifest id = some page) :
    (fs (pathJoin contentDir page.file) = FileState.absent →
      getStaticProps fs id = .error .fileNotFound) ∧
    (fs (pathJoin contentDir page.file) = FileState.ioError →
      getStaticProps fs id = .error .readError) ∧
    ((∃ e, getStaticProps fs id = .error e) → ∃ e, buildAll fs = .error e) := by
  refine ⟨?_, ?_, ?_⟩
  · intro h; simp [getStaticProps, hres, readFileSync, h]
  · intro h; simp [getStaticProps, hres, readFileSync, h]
  · intro he
    have hmem : id ∈ listPageIds manifest := by
      obtain ⟨hm, hp⟩ := findJS_eq_some hres
      have hid : page.id = id := by simpa using hp
      simp only [listPageIds, List.mem_map]
      exact ⟨page, hm, hid⟩
    exact mapExcept_error_of_mem hmem he

/-- Witness for C5: with `os.md` gone the `os` page fails with
`fileNotFound` and the whole build errors; with an I/O fault the `os`
page fails with `readError`. -/
theorem load_failures_witness :
    resolve manifest "os" = some ⟨"os", "操作系统", "os.md", some "/images/os.jpg"⟩ ∧
    getStaticProps
        (fsUpdate (fsConst (FileState.lines ["x"])) (pathJoin contentDir "os.md")
          FileState.absent) "os" = .error .fileNotFound ∧
    (∃ e, buildAll (fsUpdate (fsConst (FileState.lines ["x"]))
        (pathJoin contentDir "os.md") FileState.absent) = .error e) ∧
    getStaticProps (fsConst FileState.ioError) "os" = .error .readError := by
  have h := load_failures
      (fsUpdate (fsConst (FileState.lines ["x"])) (pathJoin contentDir "os.md")
        FileState.absent) "os"
      ⟨"os", "操作系统", "os.md", some "/images/os.jpg"⟩ (by decide)
  have h2 := load_failures (fsConst FileState.ioError) "os"
      ⟨"os", "操作系统", "os.md", some "/images/os.jpg"⟩ (by decide)
  have habs : (fsUpdate (fsConst (FileState.lines ["x"])) (pathJoin contentDir "os.md")
      FileState.absent)
      (pathJoin contentDir
        (⟨"os", "操作系统", "os.md", some "/images/os.jpg"⟩ : PageDescriptor).file)
      = FileState.absent := by decide
  exact ⟨by decide, h.1 habs, h.2.2 ⟨_, h.1 habs⟩, h2.2.1 rfl⟩

/-- C6: the Manifest Resolver is side-effect free and deterministic: each
operation, run as the source runs it over the manifest binding, leaves the
binding unchanged, returns the value of the corresponding pure function,
and two invocations with the same id return equal results. -/
theorem resolver_pure (m : List PageDescriptor) (id : String) :
    (listPageIdsM.run m = (listPageIds m, m)) ∧
    ((resolveM id).run m = (resolve m id, m)) ∧
    ((neighborsM id).run m = (neighbors m id, m)) ∧
    (((do
        let r1 ← neighborsM id
        let r2 ← neighborsM id
        pure (r1, r2)) : StateM (List PageDescriptor) _).run m
      = ((neighbors m id, neighbors m id), m)) :=
  ⟨rfl, rfl, rfl, rfl⟩

/-- C7: `load` performs no caching: the result of a call is exactly the
read-parse of the file system state at that call — equal file state gives
equal results, and a change to the file between two calls is reflected in
the second call's result. -/
theorem load_no_caching (fs1 fs2 : FS) (id : String) (page : PageDescriptor)
    (hres : resolve manifest id = some page) :
    (getStaticProps fs2 id =
      match readFileSync fs2 (pathJoin contentDir page.file) with
      | .error e => .error e
      | .ok raw => .ok ⟨page, matterContent raw⟩) ∧
    (fs1 (pathJoin contentDir page.file) = fs2 (pathJoin contentDir page.file) →
      getStaticProps fs1 id = getStaticProps fs2 id) ∧
    (∀ c1 c2 : List String, fs1 (pathJoin contentDir page.file) = FileState.lines c1 →
      fs2 (pathJoin contentDir page.file) = FileState.lines c2 →
      matterContent c1 ≠ matterContent c2 →
      getStaticProps fs1 id ≠ getStaticProps fs2 id) := by
  refine ⟨?_, ?_, ?_⟩
  · simp [getStaticProps, hres]
  · intro h; simp [getStaticProps, hres, readFileSync, h]
  · intro c1 c2 h1 h2 hne
    simpa [getStaticProps, hres, readFileSync, h1, h2, PageProps.mk.injEq] using hne

/-- Witness for C7: reading the `os` page against two file systems whose
`os.md` differs yields different results — the second call reflects the
changed file. -/
theorem load_no_caching_witness :
    resolve manifest "os" = some ⟨"os", "操作系统", "os.md", some "/images/os.jpg"⟩ ∧
    getStaticProps (fsConst (FileState.lines ["a"])) "os" ≠
      getStaticProps (fsConst (FileState.lines ["b"])) "os" := by
  have h := load_no_caching (fsConst (FileState.lines ["a"]))
      (fsConst (FileState.lines ["b"])) "os"
      ⟨"os", "操作系统", "os.md", some "/images/os.jpg"⟩ (by decide)
  exact ⟨by decide, h.2.2 ["a"] ["b"] rfl rfl (by decide)⟩

/-- C8: a missing background image is non-fatal: when a descriptor's `bg`
field is absent the style computation substitutes the fixed gradient
default instead of failing. -/
theorem background_default_on_missing (d : PageDescriptor) (h : d.bg = none) :
    backgroundStyle d.bg = gradientStyle ∧
    gradientStyle.background = some "linear-gradient(135deg, #0f172a, #021124)" ∧
    gradientStyle.backgroundImage = none := by
  rw [h]
  exact ⟨rfl, rfl, rfl⟩

/-- Witness for C8: a concrete descriptor with no background gets the
gradient default. -/
theorem background_default_on_missing_witness :
    (⟨"x", "t", "x.md", none⟩ : PageDescriptor).bg = none ∧
    backgroundStyle (⟨"x", "t", "x.md", none⟩ : PageDescriptor).bg = gradientStyle := by
  have h := background_default_on_missing ⟨"x", "t", "x.md", none⟩ rfl
  exact ⟨rfl, h.1⟩

/-- C9: for an id not in the manifest, the neighbor computation is
asymmetric: the index lookup yields `-1`, so previous is absent while
next is the manifest's first descriptor — not both absent. -/
theorem neighbors_unknown_id (id : String) (h : id ∉ listPageIds manifest) :
    neighbors manifest id =
      (none, some ⟨"network", "计算机网络", "network.md", some "/images/network.jpg"⟩) := by
  have h' : ∀ d ∈ manifest, d.id ≠ id := by
    intro d hd he
    exact h (by simp only [listPageIds, List.mem_map]; exact ⟨d, hd, he⟩)
  exact (neighbors_unknown h').trans rfl

/-- Witness for C9: the foreign id `unknown` gets no previous but gets
`network` as next. -/
theorem neighbors_unknown_id_witness :
    "unknown" ∉ listPageIds manifest ∧
    neighbors manifest "unknown" =
      (none, some ⟨"network", "计算机网络", "network.md", some "/images/network.jpg"⟩) :=
  ⟨by decide, neighbors_unknown_id "unknown" (by decide)⟩

/-- C10: `resolve` returns the first descriptor in manifest order whose
id matches: with two descriptors sharing an id, the one at the lower
index is returned. -/
theorem resolve_first_match (m1 m2 : List PageDescriptor) (d : PageDescriptor)
    (id : String) (hd : d.id = id) (h1 : ∀ x ∈ m1, x.id ≠ id) :
    resolve (m1 ++ d :: m2) id = some d := by
  show findJS (fun x => x.id == id) (m1 ++ d :: m2) = some d
  exact findJS_append (by simp [hd]) m1 m2 (fun x hx => by simpa using h1 x hx)

/-- Witness for C10: in a list with two `dup` descriptors, the earlier
one is returned. -/
theorem resolve_first_match_witness :
    ((⟨"dup", "A", "a.md", none⟩ : PageDescriptor).id = "dup") ∧
    resolve [⟨"other", "O", "o.md", none⟩, ⟨"dup", "A", "a.md", none⟩,
        ⟨"dup", "B", "b.md", none⟩] "dup" = some ⟨"dup", "A", "a.md", none⟩ := by
  have h := resolve_first_match [⟨"other", "O", "o.md", none⟩]
      [⟨"dup", "B", "b.md", none⟩] ⟨"dup", "A", "a.md", none⟩ "dup" rfl
      (by decide)
  exact ⟨rfl, h⟩
